import Mathlib

/-!
# Verification of the trading-decision engine core

A shallow embedding of the `TradingService` class (`server/services/trading-service.ts`)
of the simtwoo repository, together with theorems settling the frozen claims about it.

Conventions of the embedding:
* JavaScript numbers are modelled as exact rationals (`ℚ`).  `decimal.js`
  arithmetic (used by `calculatePositionSize`) is likewise modelled exactly.
* `Math.sqrt` is not rational-valued; wherever the source takes a square root
  (the Bollinger standard deviation, the volatility estimate) the embedding
  threads the value as an explicit parameter, and theorems that depend on it
  carry the defining hypotheses (`0 ≤ σ` and `σ * σ = variance`).
* Asynchronous effects (storage reads, exchange calls, timers) are modelled by
  explicit environment records and by result records listing the effects a call
  performs; a thrown-and-caught JS exception is modelled with `Except`.
* The `technicalindicators` npm package is an external dependency whose source
  is not part of the repository; its indicator functions are modelled from the
  specification (see the doc comments of `emaList`, `macdCalculate`,
  `rsiCalculate`, `bollingerVariance`).
-/

set_option maxRecDepth 10000

namespace Simtwoo

/-- Order side, `'buy' | 'sell'` in the source. -/
inductive Side where
  | buy
  | sell
deriving DecidableEq, Repr

/-- `type Strategy = 'MACD' | 'RSI' | 'BOLLINGER' | 'EMA'` (trading-service.ts line 8).
Note that `ENSEMBLE` is *not* a member of this union. -/
inductive Strategy where
  | MACD
  | RSI
  | BOLLINGER
  | EMA
deriving DecidableEq, Repr

/-- `interface HistoricalCandle` (trading-service.ts lines 15-22). -/
structure HistoricalCandle where
  time : ℤ
  openPrice : ℚ
  high : ℚ
  low : ℚ
  close : ℚ
  volume : ℚ
deriving DecidableEq, Repr

/-- `interface TradeSignal` (trading-service.ts lines 24-32).  The
`indicators : Record<string, any>` snapshot is omitted: it is an untyped debug
payload that no claim mentions. -/
structure TradeSignal where
  symbol : String
  side : Side
  price : ℚ
  time : ℤ
  strategy : Strategy
  confidence : ℚ
deriving DecidableEq, Repr

/-! ## Indicator computations

The indicator algorithms live in the external `technicalindicators` package,
which is not part of the repository source; they are modelled from the spec
(§4.1 and the glossary). -/

/-- One step sequence of an exponential moving average:
`ema := k * x + (1 - k) * prev` for each incoming value `x`. -/
def emaRun (k : ℚ) : ℚ → List ℚ → List ℚ
  | _, [] => []
  | prev, x :: xs =>
    let e := k * x + (1 - k) * prev
    e :: emaRun k e xs

/-- Modelled from the spec: `technicalindicators` EMA with smoothing
`k = 2 / (period + 1)`, seeded with the simple moving average of the first
`period` values and emitting one value per input from the `period`-th input on
(so `n - period + 1` outputs for `n ≥ period` inputs, none otherwise). -/
def emaList (period : ℕ) (values : List ℚ) : List ℚ :=
  if values.length < period ∨ period = 0 then []
  else
    let seed := (values.take period).sum / (period : ℚ)
    seed :: emaRun (2 / ((period : ℚ) + 1)) seed (values.drop period)

/-- One entry of `ti.MACD.calculate`: the MACD line value, the signal line
value and their difference (the histogram). -/
structure MACDPoint where
  MACD : ℚ
  signal : ℚ
  histogram : ℚ
deriving DecidableEq, Repr

/-- Modelled from the spec: `technicalindicators` MACD — the MACD line is
`EMA(fast) - EMA(slow)` of the closes, the signal line is `EMA(signalPeriod)`
of the MACD line, and the histogram is their difference; entries are emitted
once both lines are defined (the source only ever inspects the last two). -/
def macdCalculate (values : List ℚ) (fastPeriod slowPeriod signalPeriod : ℕ) : List MACDPoint :=
  let fastE := emaList fastPeriod values
  let slowE := emaList slowPeriod values
  let macdLine := List.zipWith (fun f s => f - s) (fastE.drop (slowPeriod - fastPeriod)) slowE
  let signalLine := emaList signalPeriod macdLine
  List.zipWith (fun m s => ⟨m, s, m - s⟩) (macdLine.drop (signalPeriod - 1)) signalLine

/-- The Wilder-smoothed running pair (average gain, average loss):
`avg' := (avg * (period - 1) + current) / period`. -/
def wilderRun (p : ℚ) : ℚ × ℚ → List (ℚ × ℚ) → List (ℚ × ℚ)
  | _, [] => []
  | avg, gl :: rest =>
    let next := ((avg.1 * (p - 1) + gl.1) / p, (avg.2 * (p - 1) + gl.2) / p)
    next :: wilderRun p next rest

/-- Modelled from the spec: `technicalindicators` RSI — per-step gains and
losses of the close series, Wilder-smoothed average gain/loss seeded with the
simple averages of the first `period` steps, and
`RSI = 100 - 100 / (1 + avgGain / avgLoss) = 100 * avgGain / (avgGain + avgLoss)`.
When `avgGain + avgLoss = 0` the JavaScript computation yields `NaN`, which
compares false against every bound; this is modelled by `none`. -/
def rsiCalculate (period : ℕ) (values : List ℚ) : List (Option ℚ) :=
  let diffs := List.zipWith (fun a b => b - a) values values.tail
  if diffs.length < period ∨ period = 0 then []
  else
    let gl := diffs.map fun d => (max d 0, max (-d) 0)
    let seed := (((gl.take period).map Prod.fst).sum / (period : ℚ),
                 ((gl.take period).map Prod.snd).sum / (period : ℚ))
    (seed :: wilderRun (period : ℚ) seed (gl.drop period)).map fun q =>
      if q.1 + q.2 = 0 then none else some (100 * q.1 / (q.1 + q.2))

/-- Modelled from the spec: the population variance of the final 20-close
window, which is the square of the Bollinger standard deviation used by
`ti.BollingerBands.calculate({period: 20, stdDev: 2})` for its last entry. -/
def bollingerVariance (closes : List ℚ) : ℚ :=
  let window := closes.drop (closes.length - 20)
  let middle := window.sum / 20
  (window.map fun x => (x - middle) ^ 2).sum / 20

/-! ## The signal engine: `analyzeMarket` and `calculateConfidence` -/

/-- `TradingService.calculateConfidence` (trading-service.ts lines 598-624).
For `MACD`: base 70, plus `10 ×` the crossover strength
`|current.MACD - current.signal|`, plus 5 when the histogram sign agrees with
the trade direction, capped at 95.  Any other strategy returns the default 70.
The `previous` argument is unused by the source as well. -/
def calculateConfidence (strategy : Strategy) (side : Side)
    (current _previous : MACDPoint) : ℚ :=
  match strategy with
  | .MACD =>
    let confidence : ℚ := 70
    let crossoverStrength := |current.MACD - current.signal|
    let confidence := confidence + crossoverStrength * 10
    let confidence :=
      if side = .buy ∧ 0 < current.histogram then confidence + 5
      else if side = .sell ∧ current.histogram < 0 then confidence + 5
      else confidence
    min confidence 95
  | _ => 70

/-- The `case 'MACD'` branch of `analyzeMarket` (trading-service.ts lines
383-432).  The source checks `macdResults.length < 2` and then indexes the last
and second-to-last results; matching on the reversed list is the same access. -/
def macdSignal (closes : List ℚ) (latestCandle : HistoricalCandle) : Option TradeSignal :=
  let macdResults := macdCalculate closes 12 26 9
  match macdResults.reverse with
  | current :: previous :: _ =>
    if previous.MACD < previous.signal ∧ current.signal < current.MACD then
      some { symbol := "BTCUSDT", side := .buy, price := latestCandle.close,
             time := latestCandle.time, strategy := .MACD,
             confidence := calculateConfidence .MACD .buy current previous }
    else if previous.signal < previous.MACD ∧ current.MACD < current.signal then
      some { symbol := "BTCUSDT", side := .sell, price := latestCandle.close,
             time := latestCandle.time, strategy := .MACD,
             confidence := calculateConfidence .MACD .sell current previous }
    else none
  | _ => none

/-- The `case 'RSI'` branch of `analyzeMarket` (trading-service.ts lines
434-476): RSI below 30 emits `buy` with confidence `80 - RSI`, above 70 emits
`sell` with confidence `RSI - 20`.  A `none` entry models the JavaScript `NaN`
(which fails both comparisons, emitting nothing). -/
def rsiSignal (closes : List ℚ) (latestCandle : HistoricalCandle) : Option TradeSignal :=
  let rsiResults := rsiCalculate 14 closes
  match rsiResults.reverse with
  | currentRSI :: _ =>
    match currentRSI with
    | some r =>
      if r < 30 then
        some { symbol := "BTCUSDT", side := .buy, price := latestCandle.close,
               time := latestCandle.time, strategy := .RSI, confidence := 80 - r }
      else if 70 < r then
        some { symbol := "BTCUSDT", side := .sell, price := latestCandle.close,
               time := latestCandle.time, strategy := .RSI, confidence := r - 20 }
      else none
    | none => none
  | [] => none

/-- The `case 'BOLLINGER'` branch of `analyzeMarket` (trading-service.ts lines
478-528).  `σ` is the standard deviation of the final 20-close window (the
irrational square root is threaded in; theorems carry
`σ * σ = bollingerVariance closes` and `0 ≤ σ`).  The bands of the last
`ti.BollingerBands` entry are `middle ± 2σ` around the 20-close mean, and the
`bbandsResults.length < 1` guard is `closes.length < 20`. -/
def bollingerSignal (closes : List ℚ) (latestCandle : HistoricalCandle) (σ : ℚ) :
    Option TradeSignal :=
  if closes.length < 20 then none
  else
    let window := closes.drop (closes.length - 20)
    let middle := window.sum / 20
    let upper := middle + 2 * σ
    let lower := middle - 2 * σ
    let price := latestCandle.close
    if price < lower then
      some { symbol := "BTCUSDT", side := .buy, price := price,
             time := latestCandle.time, strategy := .BOLLINGER,
             confidence := min (70 + (lower - price) / (upper - lower) * 100) 95 }
    else if upper < price then
      some { symbol := "BTCUSDT", side := .sell, price := price,
             time := latestCandle.time, strategy := .BOLLINGER,
             confidence := min (70 + (price - upper) / (upper - lower) * 100) 95 }
    else none

/-- The `case 'EMA'` branch of `analyzeMarket` (trading-service.ts lines
530-586).  The source checks `shortEMA.length < 2 || longEMA.length < 2` and
then indexes the last and second-to-last entries of each. -/
def emaSignal (closes : List ℚ) (latestCandle : HistoricalCandle) : Option TradeSignal :=
  let shortEMA := emaList 9 closes
  let longEMA := emaList 21 closes
  match shortEMA.reverse, longEMA.reverse with
  | currentShortEMA :: previousShortEMA :: _, currentLongEMA :: previousLongEMA :: _ =>
    if previousShortEMA < previousLongEMA ∧ currentLongEMA < currentShortEMA then
      let emaDiff := |currentShortEMA - currentLongEMA| / currentLongEMA * 100
      some { symbol := "BTCUSDT", side := .buy, price := latestCandle.close,
             time := latestCandle.time, strategy := .EMA,
             confidence := min (70 + emaDiff * 10) 95 }
    else if previousLongEMA < previousShortEMA ∧ currentShortEMA < currentLongEMA then
      let emaDiff := |currentShortEMA - currentLongEMA| / currentLongEMA * 100
      some { symbol := "BTCUSDT", side := .sell, price := latestCandle.close,
             time := latestCandle.time, strategy := .EMA,
             confidence := min (70 + emaDiff * 10) 95 }
    else none
  | _, _ => none

/-- `TradingService.analyzeMarket` (trading-service.ts lines 367-593).
Fewer than 50 candles throws `'Not enough data for analysis'`; the strategy
tag is dispatched as a string (the source casts `strategyName as Strategy`
before the switch, so any tag outside the four concrete ones — including
`'ENSEMBLE'` — reaches the `default` case and throws
`'Unsupported strategy: …'`).  The hard-coded
`const symbol = 'BTCUSDT'` of line 378 is reproduced inside each branch. -/
def analyzeMarket (candles : List HistoricalCandle) (strategy : String) (σ : ℚ) :
    Except String (Option TradeSignal) :=
  if candles.length < 50 then .error "Not enough data for analysis"
  else
    let closes := candles.map (·.close)
    let latestCandle := candles.getLast?.getD ⟨0, 0, 0, 0, 0, 0⟩
    match strategy with
    | "MACD" => .ok (macdSignal closes latestCandle)
    | "RSI" => .ok (rsiSignal closes latestCandle)
    | "BOLLINGER" => .ok (bollingerSignal closes latestCandle σ)
    | "EMA" => .ok (emaSignal closes latestCandle)
    | _ => .error ("Unsupported strategy: " ++ strategy)

/-! ## Position sizing -/

/-- `TradingService.calculatePositionSize` (trading-service.ts lines 275-292).
`decimal.js` arithmetic is modelled exactly over `ℚ`;
`Decimal.toDecimalPlaces(5)` uses the decimal.js default rounding mode
`ROUND_HALF_UP` (round to nearest, ties away from zero), which on the
non-negative values reaching it agrees with Mathlib `round`
(`round x = ⌊x + 1/2⌋`).  The `side` argument is unused by the source too. -/
def calculatePositionSize (availableBalance riskPercentage price : ℚ) (_side : Side) : ℚ :=
  let riskAmount := availableBalance * (riskPercentage / 100)
  let positionSize := riskAmount / price
  if positionSize < 1 / 100000 then 0
  else ((round (positionSize * 100000) : ℤ) : ℚ) / 100000

/-- The sizing rule as the spec words it (§4.4): the same computation but with
the 5-decimal rounding "rounded down" (truncated towards zero, which for the
non-negative values reaching it is `Int.floor`). -/
def calculatePositionSizeSpec (availableBalance riskPercentage price : ℚ) : ℚ :=
  let riskAmount := availableBalance * (riskPercentage / 100)
  let positionSize := riskAmount / price
  if positionSize < 1 / 100000 then 0
  else ((⌊positionSize * 100000⌋ : ℤ) : ℚ) / 100000

/-! ## The trading cycle -/

/-- The order request sent to `bitgetService.executeTrade`
(trading-service.ts lines 299-304). -/
structure OrderRequest where
  symbol : String
  side : Side
  size : ℚ
  orderType : String
deriving DecidableEq, Repr

/-- The `InsertTrade` record persisted by `executeTrade`
(trading-service.ts lines 307-321); the untyped `tradeData` JSON blob is
represented by the confidence and timestamp it wraps. -/
structure InsertTrade where
  userId : ℕ
  symbol : String
  side : Side
  entryPrice : ℚ
  quantity : ℚ
  status : String
  strategy : Strategy
  orderId : String
  confidence : ℚ
  timestamp : ℤ
deriving DecidableEq, Repr

/-- The `InsertBalanceHistory` record persisted by `recordBalance`
(trading-service.ts lines 331-345). -/
structure InsertBalanceHistory where
  userId : ℕ
  totalBalance : ℚ
  availableBalance : ℚ
deriving DecidableEq, Repr

/-- The balance returned by `bitgetService.getAccountBalance`. -/
structure AccountBalance where
  availableBalance : ℚ
  totalBalance : ℚ
deriving DecidableEq, Repr

/-- `TradingService.executeTrade`'s persisted record (trading-service.ts lines
307-323): every field is copied from the signal or the arguments. -/
def mkInsertTrade (userId : ℕ) (signal : TradeSignal) (size : ℚ) (orderId : String) :
    InsertTrade :=
  { userId := userId, symbol := signal.symbol, side := signal.side,
    entryPrice := signal.price, quantity := size, status := "OPEN",
    strategy := signal.strategy, orderId := orderId,
    confidence := signal.confidence, timestamp := signal.time }

/-- `TradingService.hasReachedMaxTrades` (trading-service.ts lines 117-120):
`openTrades.length >= this.maxConcurrentTrades`, where the count is the number
of `'OPEN'`-status trades reported by the store. -/
def hasReachedMaxTrades (openTradesCount maxConcurrentTrades : ℕ) : Bool :=
  maxConcurrentTrades ≤ openTradesCount

/-- The mutable service-level knobs: `confidenceThreshold` (70 initially) and
`maxConcurrentTrades` (3), trading-service.ts lines 54 and 57. -/
structure ServiceConfig where
  confidenceThreshold : ℚ
  maxConcurrentTrades : ℕ
deriving DecidableEq, Repr

/-- The initial knob values of the service instance. -/
def initialConfig : ServiceConfig := ⟨70, 3⟩

/-- The external world a single `runTradingCycle` call observes: the candles
returned by `getHistoricalData`, the Bollinger standard deviation (see
`bollingerSignal`), the volatility value `calculateVolatility` produces (an
irrational square root whose value no claim depends on), the account balance,
the open-trade count reported by the store at the re-check, whether the
exchange accepts the order, and the order id it allocates. -/
structure CycleEnv where
  candles : List HistoricalCandle
  sigma : ℚ
  volatility : ℚ
  balance : AccountBalance
  openTradesCount : ℕ
  exchangeOk : Bool
  orderId : String
deriving DecidableEq, Repr

/-- The effects a single `runTradingCycle` call performs: order submissions
attempted through the exchange gateway, trades and balance snapshots persisted
to the store, `updatePairPerformance(symbol, success, volatility)` calls, and
the message logged by the enclosing `catch` (the cycle never rethrows). -/
structure CycleResult where
  ordersSubmitted : List OrderRequest
  tradesSaved : List InsertTrade
  balancesSaved : List InsertBalanceHistory
  perfUpdates : List (String × Bool × ℚ)
  errorLogged : Option String
deriving DecidableEq, Repr

/-- `TradingService.runTradingCycle` (trading-service.ts lines 213-270),
step by step:
1. fetch candles (`env.candles`);
2. compute the volatility (`env.volatility`);
3. `analyzeMarket` — a throw is caught by the cycle's own `catch`;
4. confidence gate `signal.confidence >= confidenceThreshold`;
5. balance fetch;
6. concurrency re-check: at the cap, `return` (no effects at all);
7. position sizing;
8. if the size is positive, submit; on success persist the trade and a
   balance snapshot and update performance with `true`; on exchange failure
   update performance with `false`; a zero size falls through silently;
9. a low-confidence or absent signal still updates performance with `true`. -/
def runTradingCycle (cfg : ServiceConfig) (userId : ℕ) (symbol : String)
    (strategyName : String) (riskPerTrade : ℚ) (env : CycleEnv) : CycleResult :=
  match analyzeMarket env.candles strategyName env.sigma with
  | .error e => ⟨[], [], [], [], some e⟩
  | .ok osignal =>
    match osignal with
    | some signal =>
      if cfg.confidenceThreshold ≤ signal.confidence then
        if hasReachedMaxTrades env.openTradesCount cfg.maxConcurrentTrades then
          ⟨[], [], [], [], none⟩
        else
          let positionSize :=
            calculatePositionSize env.balance.availableBalance riskPerTrade
              signal.price signal.side
          if 0 < positionSize then
            let order : OrderRequest := ⟨signal.symbol, signal.side, positionSize, "market"⟩
            if env.exchangeOk then
              ⟨[order], [mkInsertTrade userId signal positionSize env.orderId],
               [⟨userId, env.balance.totalBalance, env.balance.availableBalance⟩],
               [(symbol, true, env.volatility)], none⟩
            else
              ⟨[order], [], [], [(symbol, false, env.volatility)], none⟩
          else ⟨[], [], [], [], none⟩
      else ⟨[], [], [], [(symbol, true, env.volatility)], none⟩
    | none => ⟨[], [], [], [(symbol, true, env.volatility)], none⟩

/-! ## Pair selection -/

/-- One entry of the `tradingPairs` table (trading-service.ts lines 60-66). -/
structure TradingPair where
  symbol : String
  weight : ℚ
deriving DecidableEq, Repr

/-- The configured pair table with its static weights
(trading-service.ts lines 60-66). -/
def tradingPairs : List TradingPair :=
  [⟨"BTCUSDT", 3/10⟩, ⟨"ETHUSDT", 1/4⟩, ⟨"BNBUSDT", 1/5⟩, ⟨"XRPUSDT", 3/20⟩, ⟨"DOGEUSDT", 1/10⟩]

/-- The tracked per-pair performance record (trading-service.ts lines 69-73). -/
structure PairPerf where
  volatility : ℚ
  successRate : ℚ
  lastUpdated : ℤ
deriving DecidableEq, Repr

/-- The per-pair score of `getTopTradingPairs` (trading-service.ts lines
94-105): `score = weight + volatility * 0.3 + successRate * 0.5`. -/
def pairScores (pairs : List TradingPair) (pairPerformance : String → PairPerf) :
    List (String × ℚ) :=
  pairs.map fun pair =>
    (pair.symbol,
      pair.weight + (pairPerformance pair.symbol).volatility * (3/10)
        + (pairPerformance pair.symbol).successRate * (1/2))

/-- The JavaScript comparator `(a, b) => b.score - a.score` as the ordering a
stable sort consumes: `a` may stay before `b` iff `b.score ≤ a.score`. -/
def scoreLe (a b : String × ℚ) : Bool := b.2 ≤ a.2

/-- The scored pairs after `Array.prototype.sort` — a stable sort — with the
descending-score comparator (trading-service.ts line 109). -/
def rankedScores (pairs : List TradingPair) (pairPerformance : String → PairPerf) :
    List (String × ℚ) :=
  (pairScores pairs pairPerformance).mergeSort scoreLe

/-- `TradingService.getTopTradingPairs` (trading-service.ts lines 92-112):
score each configured pair, sort descending (stable), take the first `count`,
return the symbols. -/
def getTopTradingPairs (pairs : List TradingPair) (pairPerformance : String → PairPerf)
    (count : ℕ) : List String :=
  ((rankedScores pairs pairPerformance).take count).map Prod.fst

/-! ## The scheduler: per-user timers, ticks, start/stop -/

/-- The per-user `TradingSettings` row read through
`storage.getTradingSettings` (see `shared/schema` and storage.ts). -/
structure TradingSettings where
  symbol : String
  timeframe : String
  strategy : String
  riskPerTrade : ℚ
  enabledTrading : Bool
deriving DecidableEq, Repr

/-- The persistence store as the scheduler sees it: the current
`TradingSettings` row per user id (`none` models an absent row, which makes
`startTradingForUser` throw and return `false`). -/
def Store : Type := ℕ → Option TradingSettings

/-- `TradingService.convertTimeframeToMs` (trading-service.ts lines 629-643).
`parseInt` of the leading digits is modelled by `String.toNat?` on the prefix;
units `m`/`h`/`d` scale to milliseconds, anything else defaults to one hour. -/
def convertTimeframeToMs (timeframe : String) : ℕ :=
  let amount := (timeframe.dropRight 1).toNat?.getD 0
  match timeframe.takeRight 1 with
  | "m" => amount * 60 * 1000
  | "h" => amount * 60 * 60 * 1000
  | "d" => amount * 24 * 60 * 60 * 1000
  | _ => 60 * 60 * 1000

/-- One armed `setInterval` timer: its JavaScript handle (`id`), the
`runningIntervals` key it was registered under, its period, and the settings
object captured by the interval closure when `startTradingForUser` armed it. -/
structure ArmedTimer where
  id : ℕ
  intervalKey : String
  intervalMs : ℕ
  captured : TradingSettings
deriving DecidableEq, Repr

/-- The mutable scheduler state of the `TradingService` instance:
`isRunning`, the `runningIntervals` key-to-handle map, every armed and not yet
cleared timer (a handle overwritten in the map stays armed — `setInterval`
timers run until `clearInterval` is called on their handle), and the next
fresh timer handle. -/
structure SchedulerState where
  isRunning : Bool
  runningIntervals : List (String × ℕ)
  armedTimers : List ArmedTimer
  nextTimerId : ℕ
deriving DecidableEq, Repr

/-- The scheduler state of a freshly constructed service. -/
def initialSchedulerState : SchedulerState := ⟨false, [], [], 0⟩

/-- JavaScript object property write `obj[key] = v`: overwrite if present,
append otherwise. -/
def setKey (l : List (String × ℕ)) (k : String) (v : ℕ) : List (String × ℕ) :=
  if l.any (·.1 = k) then l.map (fun p => if p.1 = k then (k, v) else p)
  else l ++ [(k, v)]

/-- JavaScript `delete obj[key]`. -/
def delKey (l : List (String × ℕ)) (k : String) : List (String × ℕ) :=
  l.filter (¬ ·.1 = k)

/-- JavaScript property read `obj[key]`. -/
def lookupInterval (st : SchedulerState) (key : String) : Option ℕ :=
  (st.runningIntervals.find? (·.1 = key)).map (·.2)

/-- `TradingService.startTradingForUser` (trading-service.ts lines 143-192):
read the settings row once (absent ⇒ the throw is caught ⇒ `false`; trading
disabled ⇒ `false`); otherwise arm a `setInterval` timer whose closure
captures `settings`, store its handle under `user-<id>` — overwriting any
previous handle without clearing its timer — set `isRunning`, return `true`.
There is no already-running guard. -/
def startTradingForUser (store : Store) (st : SchedulerState) (userId : ℕ) :
    SchedulerState × Bool :=
  match store userId with
  | none => (st, false)
  | some settings =>
    if !settings.enabledTrading then (st, false)
    else
      let interval := convertTimeframeToMs settings.timeframe
      let timer : ArmedTimer :=
        ⟨st.nextTimerId, "user-" ++ toString userId, interval, settings⟩
      ({ isRunning := true,
         runningIntervals := setKey st.runningIntervals timer.intervalKey timer.id,
         armedTimers := st.armedTimers ++ [timer],
         nextTimerId := st.nextTimerId + 1 }, true)

/-- `TradingService.stopTradingForUser` (trading-service.ts lines 197-208):
clear the interval stored under `user-<id>` if any and delete the key;
no handle is a no-op returning `false`. -/
def stopTradingForUser (st : SchedulerState) (userId : ℕ) : SchedulerState × Bool :=
  let intervalKey := "user-" ++ toString userId
  match lookupInterval st intervalKey with
  | some intervalId =>
    ({ st with runningIntervals := delKey st.runningIntervals intervalKey,
               armedTimers := st.armedTimers.filter (·.id ≠ intervalId) }, true)
  | none => (st, false)

/-- The external world one timer tick observes: the open-trade count the store
reports at the tick-start cap check, the current `pairPerformance` map, and a
`CycleEnv` per symbol the tick may trade. -/
structure TickEnv where
  openTradesAtTickStart : ℕ
  pairPerformance : String → PairPerf
  cycleEnv : String → CycleEnv

/-- What one timer tick did: whether it returned at the tick-start cap check,
which symbols it fetched candles for (the first step of each per-symbol
cycle), and each per-symbol cycle's effects. -/
structure TickResult where
  skippedAtCap : Bool
  candleFetches : List String
  cycles : List (String × CycleResult)
deriving DecidableEq, Repr

/-- All orders a tick submitted across its per-symbol cycles. -/
def TickResult.orders (t : TickResult) : List OrderRequest :=
  t.cycles.foldr (fun c acc => c.2.ordersSubmitted ++ acc) []

/-- The `setInterval` callback armed by `startTradingForUser`
(trading-service.ts lines 158-181).  It closes over the `settings` object read
when the timer was armed (`captured`); the only store access it makes is the
open-trade count inside `hasReachedMaxTrades` — it never re-reads
`getTradingSettings`, which is why the `store` argument is unused.  At the
cap it returns immediately; otherwise it resolves the symbols (the top-ranked
pairs when the captured strategy is `ENSEMBLE`/`AUTO`, else the single
captured symbol) and runs one trading cycle per symbol, passing the captured
strategy tag and risk straight through. -/
def tickFire (_store : Store) (cfg : ServiceConfig) (captured : TradingSettings)
    (userId : ℕ) (env : TickEnv) : TickResult :=
  if hasReachedMaxTrades env.openTradesAtTickStart cfg.maxConcurrentTrades then
    ⟨true, [], []⟩
  else
    let symbols :=
      if captured.strategy = "ENSEMBLE" ∨ captured.strategy = "AUTO" then
        getTopTradingPairs tradingPairs env.pairPerformance 3
      else [captured.symbol]
    ⟨false, symbols,
     symbols.map fun s =>
       (s, runTradingCycle cfg userId s captured.strategy captured.riskPerTrade
             (env.cycleEnv s))⟩

/-! ## Helper lemmas -/

theorem round_mono_rat {x y : ℚ} (h : x ≤ y) : round x ≤ round y := by
  rw [round_eq, round_eq]
  exact Int.floor_le_floor (by linarith)

theorem one_le_round_rat {y : ℚ} (hy : 1 ≤ y) : (1 : ℤ) ≤ round y := by
  have : round (1 : ℚ) ≤ round y := round_mono_rat hy
  simpa using this

/-- Unfolding equation for `calculatePositionSize`. -/
theorem calculatePositionSize_eq (b r p : ℚ) (s : Side) :
    calculatePositionSize b r p s =
      if b * (r / 100) / p < 1 / 100000 then 0
      else ((round (b * (r / 100) / p * 100000) : ℤ) : ℚ) / 100000 := rfl

theorem calculatePositionSize_nonneg_of_min {b r p : ℚ} {s : Side}
    (h : ¬ b * (r / 100) / p < 1 / 100000) :
    1 / 100000 ≤ calculatePositionSize b r p s := by
  rw [calculatePositionSize_eq, if_neg h]
  push_neg at h
  have h1 : (1 : ℚ) ≤ b * (r / 100) / p * 100000 := by linarith
  have h2 : (1 : ℤ) ≤ round (b * (r / 100) / p * 100000) := one_le_round_rat h1
  have h3 : (1 : ℚ) ≤ ((round (b * (r / 100) / p * 100000) : ℤ) : ℚ) := by exact_mod_cast h2
  linarith

/-! ## Claim C9: sizing is monotone in the risk percentage, and always 0 or ≥ 0.00001 -/

/-- C9: for fixed `availableBalance ≥ 0` and `price > 0`,
`calculatePositionSize` is monotonically non-decreasing in the risk
percentage, and for every risk percentage its value is either exactly `0` or
at least `0.00001`. -/
theorem positionSize_monotone_and_min (b p r r₁ r₂ : ℚ) (s : Side)
    (hb : 0 ≤ b) (hp : 0 < p) (hr : r₁ ≤ r₂) :
    calculatePositionSize b r₁ p s ≤ calculatePositionSize b r₂ p s ∧
      (calculatePositionSize b r p s = 0 ∨
        1 / 100000 ≤ calculatePositionSize b r p s) := by
  constructor
  · have hx : b * (r₁ / 100) / p ≤ b * (r₂ / 100) / p := by gcongr
    rw [calculatePositionSize_eq, calculatePositionSize_eq]
    by_cases h2 : b * (r₂ / 100) / p < 1 / 100000
    · rw [if_pos (lt_of_le_of_lt hx h2), if_pos h2]
    · rw [if_neg h2]
      by_cases h1 : b * (r₁ / 100) / p < 1 / 100000
      · rw [if_pos h1]
        have := @calculatePositionSize_nonneg_of_min b r₂ p s h2
        rw [calculatePositionSize_eq, if_neg h2] at this
        linarith
      · rw [if_neg h1]
        have hround : round (b * (r₁ / 100) / p * 100000) ≤
            round (b * (r₂ / 100) / p * 100000) := round_mono_rat (by linarith)
        have : ((round (b * (r₁ / 100) / p * 100000) : ℤ) : ℚ) ≤
            ((round (b * (r₂ / 100) / p * 100000) : ℤ) : ℚ) := by exact_mod_cast hround
        linarith
  · by_cases h : b * (r / 100) / p < 1 / 100000
    · exact Or.inl (by rw [calculatePositionSize_eq, if_pos h])
    · exact Or.inr (calculatePositionSize_nonneg_of_min h)

/-- Witness for `positionSize_monotone_and_min` at balance 100, price 50,
risks 1 ≤ 2. -/
theorem positionSize_monotone_and_min_witness :
    (0 : ℚ) ≤ 100 ∧ (0 : ℚ) < 50 ∧ (1 : ℚ) ≤ 2 ∧
      (calculatePositionSize 100 1 50 Side.buy ≤ calculatePositionSize 100 2 50 Side.buy ∧
        (calculatePositionSize 100 2 50 Side.buy = 0 ∨
          1 / 100000 ≤ calculatePositionSize 100 2 50 Side.buy)) :=
  ⟨by norm_num, by norm_num, by norm_num,
    positionSize_monotone_and_min 100 50 2 1 2 Side.buy (by norm_num) (by norm_num) (by norm_num)⟩

/-! ## Claim C4: the sizing formula — half-up rounding, not truncation -/

/-- C4 counterexample: at `availableBalance = 0.15`, `riskPct = 1`,
`price = 100` the exact size is `0.000015`; the code (decimal.js
`toDecimalPlaces(5)` with the default `ROUND_HALF_UP` mode) returns
`0.00002`, while the claimed round-down (truncation) would return `0.00001`. -/
theorem positionSize_not_truncated :
    calculatePositionSize (3/20) 1 100 Side.buy = 1/50000 ∧
      calculatePositionSizeSpec (3/20) 1 100 = 1/100000 ∧
      calculatePositionSize (3/20) 1 100 Side.buy ≠ calculatePositionSizeSpec (3/20) 1 100 := by
  have hx : (3/20 : ℚ) * (1 / 100) / 100 = 3/200000 := by norm_num
  have hno : ¬ ((3/20 : ℚ) * (1 / 100) / 100 < 1/100000) := by rw [hx]; norm_num
  have hmul : (3/20 : ℚ) * (1 / 100) / 100 * 100000 = 3/2 := by norm_num
  have hround : round ((3:ℚ)/2) = 2 := by norm_num [round_eq]
  have hfloor : ⌊(3:ℚ)/2⌋ = 1 := by norm_num
  have h1 : calculatePositionSize (3/20) 1 100 Side.buy = 1/50000 := by
    rw [calculatePositionSize_eq, if_neg hno, hmul, hround]
    norm_num
  have h2 : calculatePositionSizeSpec (3/20) 1 100 = 1/100000 := by
    show (if (3/20 : ℚ) * (1 / 100) / 100 < 1 / 100000 then 0
      else ((⌊(3/20 : ℚ) * (1 / 100) / 100 * 100000⌋ : ℤ) : ℚ) / 100000) = 1/100000
    rw [if_neg hno, hmul, hfloor]
    norm_num
  exact ⟨h1, h2, by rw [h1, h2]; norm_num⟩

/-- C4 (amended): sizing returns `riskAmount / price` with
`riskAmount = availableBalance × (riskPct/100)`, rounded to 5 decimal places
*to the nearest value, ties away from zero* (decimal.js `ROUND_HALF_UP`) —
not truncated; if the exact size is below `0.00001` it returns exactly `0`;
the result is never negative (and is within half an ulp of the exact size). -/
theorem positionSize_formula (b r p : ℚ) (s : Side)
    (_hb : 0 ≤ b) (_hr0 : 0 ≤ r) (_hr1 : r ≤ 100) (hp : 0 < p) :
    0 ≤ calculatePositionSize b r p s ∧
      (b * (r / 100) / p < 1 / 100000 → calculatePositionSize b r p s = 0) ∧
      (1 / 100000 ≤ b * (r / 100) / p →
        calculatePositionSize b r p s =
            ((round (b * (r / 100) / p * 100000) : ℤ) : ℚ) / 100000 ∧
          |calculatePositionSize b r p s - b * (r / 100) / p| ≤ 1 / 200000) := by
  refine ⟨?_, ?_, ?_⟩
  · by_cases h : b * (r / 100) / p < 1 / 100000
    · rw [calculatePositionSize_eq, if_pos h]
    · linarith [@calculatePositionSize_nonneg_of_min b r p s h]
  · intro h
    rw [calculatePositionSize_eq, if_pos h]
  · intro h
    have h' : ¬ b * (r / 100) / p < 1 / 100000 := not_lt.mpr h
    constructor
    · rw [calculatePositionSize_eq, if_neg h']
    · rw [calculatePositionSize_eq, if_neg h']
      have habs : |b * (r / 100) / p * 100000 - (round (b * (r / 100) / p * 100000) : ℤ)| ≤
          1 / 2 := abs_sub_round _
      rw [abs_sub_comm] at habs
      have : |((round (b * (r / 100) / p * 100000) : ℤ) : ℚ) / 100000 - b * (r / 100) / p| =
          |((round (b * (r / 100) / p * 100000) : ℤ) : ℚ) - b * (r / 100) / p * 100000| / 100000 := by
        rw [← abs_of_pos (show (0:ℚ) < 100000 by norm_num), ← abs_div]
        congr 1
        field_simp
        ring
      rw [this]
      rw [div_le_iff₀ (by norm_num : (0:ℚ) < 100000)]
      calc |((round (b * (r / 100) / p * 100000) : ℤ) : ℚ) - b * (r / 100) / p * 100000| ≤ 1/2 :=
            habs
        _ ≤ 1 / 200000 * 100000 := by norm_num

/-- Witness for `positionSize_formula` at balance 0.15, risk 1, price 100. -/
theorem positionSize_formula_witness :
    (0 : ℚ) ≤ 3/20 ∧ (0 : ℚ) ≤ 1 ∧ (1 : ℚ) ≤ 100 ∧ (0 : ℚ) < 100 ∧
      (0 ≤ calculatePositionSize (3/20) 1 100 Side.buy ∧
        ((3/20 : ℚ) * (1 / 100) / 100 < 1 / 100000 →
          calculatePositionSize (3/20) 1 100 Side.buy = 0) ∧
        (1 / 100000 ≤ (3/20 : ℚ) * (1 / 100) / 100 →
          calculatePositionSize (3/20) 1 100 Side.buy =
              ((round ((3/20 : ℚ) * (1 / 100) / 100 * 100000) : ℤ) : ℚ) / 100000 ∧
            |calculatePositionSize (3/20) 1 100 Side.buy - (3/20 : ℚ) * (1 / 100) / 100| ≤
              1 / 200000)) :=
  ⟨by norm_num, by norm_num, by norm_num, by norm_num,
    positionSize_formula (3/20) 1 100 Side.buy (by norm_num) (by norm_num) (by norm_num)
      (by norm_num)⟩

/-! ## Claim C7: pair ranking -/

theorem scoreLe_trans : ∀ a b c : String × ℚ, scoreLe a b → scoreLe b c → scoreLe a c := by
  intro a b c hab hbc
  simp only [scoreLe, decide_eq_true_eq] at *
  exact le_trans hbc hab

theorem scoreLe_total : ∀ a b : String × ℚ, scoreLe a b || scoreLe b a := by
  intro a b
  simp only [scoreLe, Bool.or_eq_true, decide_eq_true_eq]
  exact le_total b.2 a.2

/-- C7: `getTopTradingPairs` scores each configured pair as
`weight + 0.3 × volatility + 0.5 × successRate` (see `pairScores`), and its
output is the first `count` symbols of a reordering of those scored pairs that
(i) is sorted by descending score, (ii) contains exactly the configured
scored pairs, (iii) dominates: every kept entry's score is at least every
dropped entry's score, and (iv) is stable: two equal-scored entries appear in
their original configuration order. -/
theorem getTopTradingPairs_spec (pairs : List TradingPair)
    (pairPerformance : String → PairPerf) (count : ℕ) :
    getTopTradingPairs pairs pairPerformance count =
        ((rankedScores pairs pairPerformance).take count).map Prod.fst ∧
      (rankedScores pairs pairPerformance).Pairwise (fun a b => b.2 ≤ a.2) ∧
      (rankedScores pairs pairPerformance).Perm (pairScores pairs pairPerformance) ∧
      (∀ a ∈ (rankedScores pairs pairPerformance).take count,
        ∀ b ∈ (rankedScores pairs pairPerformance).drop count, b.2 ≤ a.2) ∧
      (∀ x y : String × ℚ, [x, y].Sublist (pairScores pairs pairPerformance) → x.2 = y.2 →
        [x, y].Sublist (rankedScores pairs pairPerformance)) := by
  have hsorted : (rankedScores pairs pairPerformance).Pairwise (fun a b => b.2 ≤ a.2) := by
    have h := List.sorted_mergeSort scoreLe_trans scoreLe_total
      (pairScores pairs pairPerformance)
    exact h.imp (fun hab => by simpa [scoreLe] using hab)
  refine ⟨rfl, hsorted, List.mergeSort_perm _ _, ?_, ?_⟩
  · intro a ha b hb
    have hsplit := hsorted
    rw [← List.take_append_drop count (rankedScores pairs pairPerformance),
      List.pairwise_append] at hsplit
    exact hsplit.2.2 a ha b hb
  · intro x y hsub heq
    exact List.pair_sublist_mergeSort scoreLe_trans scoreLe_total
      (by simp [scoreLe, heq]) hsub

/-! ## Claim C1: the concurrency cap blocks order submission -/

/-- C1: with the configured cap of 3 and at least 3 open trades reported by
the store, a scheduler tick returns at the tick-start cap check — no candle
fetch, no per-symbol cycle, no order; and independently, inside
`runTradingCycle` the pre-execution re-check blocks every order submission
and persistence, regardless of the signal or its confidence. -/
theorem concurrencyCap_blocks (store : Store) (cfg : ServiceConfig)
    (captured : TradingSettings) (userId : ℕ) (tenv : TickEnv)
    (symbol strategyName : String) (risk : ℚ) (cenv : CycleEnv)
    (hmax : cfg.maxConcurrentTrades = 3)
    (htick : 3 ≤ tenv.openTradesAtTickStart)
    (hcycle : 3 ≤ cenv.openTradesCount) :
    tickFire store cfg captured userId tenv = ⟨true, [], []⟩ ∧
      (runTradingCycle cfg userId symbol strategyName risk cenv).ordersSubmitted = [] ∧
      (runTradingCycle cfg userId symbol strategyName risk cenv).tradesSaved = [] ∧
      (runTradingCycle cfg userId symbol strategyName risk cenv).balancesSaved = [] := by
  have hcapT : hasReachedMaxTrades tenv.openTradesAtTickStart cfg.maxConcurrentTrades = true := by
    simp [hasReachedMaxTrades, hmax, htick]
  have hcapC : hasReachedMaxTrades cenv.openTradesCount cfg.maxConcurrentTrades = true := by
    simp [hasReachedMaxTrades, hmax, hcycle]
  refine ⟨by simp [tickFire, hcapT], ?_⟩
  rcases hA : analyzeMarket cenv.candles strategyName cenv.sigma with e | osig
  · simp [runTradingCycle, hA]
  · rcases osig with _ | signal
    · simp [runTradingCycle, hA]
    · by_cases hc : cfg.confidenceThreshold ≤ signal.confidence
      · simp [runTradingCycle, hA, hc, hcapC]
      · simp [runTradingCycle, hA, hc]

/-- A cycle environment sitting at the concurrency cap. -/
def capCycleEnv : CycleEnv := ⟨[], 0, 0, ⟨0, 0⟩, 3, true, "oid-1"⟩

/-- A tick environment sitting at the concurrency cap. -/
def capTickEnv : TickEnv := ⟨3, fun _ => ⟨0, 0, 0⟩, fun _ => capCycleEnv⟩

/-- A settings row as captured by an armed timer. -/
def demoSettings : TradingSettings := ⟨"ETHUSDT", "15m", "RSI", 1, true⟩

/-- Witness for `concurrencyCap_blocks` at the initial configuration with
3 open trades. -/
theorem concurrencyCap_blocks_witness :
    initialConfig.maxConcurrentTrades = 3 ∧
      3 ≤ capTickEnv.openTradesAtTickStart ∧ 3 ≤ capCycleEnv.openTradesCount ∧
      (tickFire (fun _ => none) initialConfig demoSettings 7 capTickEnv = ⟨true, [], []⟩ ∧
        (runTradingCycle initialConfig 7 "ETHUSDT" "RSI" 1 capCycleEnv).ordersSubmitted = [] ∧
        (runTradingCycle initialConfig 7 "ETHUSDT" "RSI" 1 capCycleEnv).tradesSaved = [] ∧
        (runTradingCycle initialConfig 7 "ETHUSDT" "RSI" 1 capCycleEnv).balancesSaved = []) :=
  ⟨rfl, by decide, by decide,
    concurrencyCap_blocks (fun _ => none) initialConfig demoSettings 7 capTickEnv
      "ETHUSDT" "RSI" 1 capCycleEnv rfl (by decide) (by decide)⟩

/-! ## Claim C8: insufficient data is caught and the cycle skips -/

/-- C8: with fewer than 50 candles `analyzeMarket` fails with
`'Not enough data for analysis'` for every strategy, and the enclosing
`runTradingCycle` catches the throw and performs nothing: no order, no
persisted trade or balance snapshot, not even a performance update — it only
logs the error and returns normally, leaving the scheduler's timer to keep
firing. -/
theorem insufficientData_skips (cfg : ServiceConfig) (userId : ℕ)
    (symbol strategyName : String) (risk : ℚ) (cenv : CycleEnv)
    (hlen : cenv.candles.length < 50) :
    analyzeMarket cenv.candles strategyName cenv.sigma =
        .error "Not enough data for analysis" ∧
      runTradingCycle cfg userId symbol strategyName risk cenv =
        ⟨[], [], [], [], some "Not enough data for analysis"⟩ := by
  have hA : analyzeMarket cenv.candles strategyName cenv.sigma =
      .error "Not enough data for analysis" := by
    unfold analyzeMarket
    rw [if_pos hlen]
  exact ⟨hA, by simp [runTradingCycle, hA]⟩

/-- A cycle environment whose candle fetch returned only 10 candles. -/
def shortCycleEnv : CycleEnv :=
  ⟨(List.range 10).map fun i => ⟨i, 0, 0, 0, 100, 0⟩, 0, 0, ⟨1000, 1000⟩, 0, true, "oid-2"⟩

/-- Witness for `insufficientData_skips` on a 10-candle fetch. -/
theorem insufficientData_skips_witness :
    shortCycleEnv.candles.length < 50 ∧
      (analyzeMarket shortCycleEnv.candles "MACD" shortCycleEnv.sigma =
          .error "Not enough data for analysis" ∧
        runTradingCycle initialConfig 7 "BTCUSDT" "MACD" 1 shortCycleEnv =
          ⟨[], [], [], [], some "Not enough data for analysis"⟩) :=
  ⟨by decide, insufficientData_skips initialConfig 7 "BTCUSDT" "MACD" 1 shortCycleEnv (by decide)⟩

/-! ## Claim C10: start on an already-running account -/

theorem find?_setKey_of_any (k : String) (v : ℕ) :
    ∀ l : List (String × ℕ), l.any (fun p => p.1 = k) = true →
      ((l.map fun p => if p.1 = k then (k, v) else p).find? fun p => decide (p.1 = k)) =
        some (k, v) := by
  intro l hl
  induction l with
  | nil => simp at hl
  | cons hd tl ih =>
    by_cases hk : hd.1 = k
    · simp [List.find?, hk]
    · simp only [List.any_cons, Bool.or_eq_true, decide_eq_true_eq] at hl
      rcases hl with h | h
      · exact absurd h hk
      · simpa [List.find?, hk] using ih (by simpa using h)

theorem find?_append_of_not_any (k : String) (v : ℕ) :
    ∀ l : List (String × ℕ), l.any (fun p => p.1 = k) = false →
      ((l ++ [(k, v)]).find? fun p => decide (p.1 = k)) = some (k, v) := by
  intro l hl
  induction l with
  | nil => simp [List.find?]
  | cons hd tl ih =>
    simp only [List.any_cons, Bool.or_eq_false_iff, decide_eq_false_iff_not] at hl
    simpa [List.find?, hl.1] using ih (by simp [hl.2])

/-- After `obj[key] = v`, reading `obj[key]` yields `v`. -/
theorem find?_setKey (l : List (String × ℕ)) (k : String) (v : ℕ) :
    ((setKey l k v).find? fun p => decide (p.1 = k)) = some (k, v) := by
  unfold setKey
  by_cases h : l.any (fun p => p.1 = k) = true
  · rw [if_pos h]
    exact find?_setKey_of_any k v l h
  · rw [if_neg h]
    exact find?_append_of_not_any k v l (Bool.eq_false_iff.mpr h)

/-- A store in which user 1 has enabled trading settings. -/
def enabledDemoStore : Store := fun u => if u = 1 then some demoSettings else none

/-- C10 counterexample: with user 1 already running (one armed timer), a
second `startTradingForUser` call returns `true` — not the claimed
"not started" — arms a second timer, and repoints the stored handle. -/
theorem doubleStart_not_noop :
    (startTradingForUser enabledDemoStore
        (startTradingForUser enabledDemoStore initialSchedulerState 1).1 1).2 = true ∧
      (startTradingForUser enabledDemoStore initialSchedulerState 1).1.armedTimers.length = 1 ∧
      (startTradingForUser enabledDemoStore
        (startTradingForUser enabledDemoStore initialSchedulerState 1).1 1).1.armedTimers.length
        = 2 ∧
      lookupInterval (startTradingForUser enabledDemoStore initialSchedulerState 1).1 "user-1"
        = some 0 ∧
      lookupInterval (startTradingForUser enabledDemoStore
        (startTradingForUser enabledDemoStore initialSchedulerState 1).1 1).1 "user-1"
        = some 1 := by
  refine ⟨?_, ?_, ?_, ?_, ?_⟩ <;> with_unfolding_all rfl

/-- C10 (amended): calling start for an account whose loop is already running
(its interval key holds a handle) is *not* a no-op: with present, enabled
settings it returns `true` ("started"), arms an additional timer — the
previously armed timer stays armed — and overwrites the stored interval
handle with the new timer's id, making the old timer unreachable by stop. -/
theorem start_whileRunning_armsSecondTimer (store : Store) (st : SchedulerState)
    (userId : ℕ) (settings : TradingSettings) (oldId : ℕ)
    (hs : store userId = some settings) (hen : settings.enabledTrading = true)
    (_hrun : lookupInterval st ("user-" ++ toString userId) = some oldId) :
    (startTradingForUser store st userId).2 = true ∧
      (startTradingForUser store st userId).1.armedTimers =
        st.armedTimers ++
          [⟨st.nextTimerId, "user-" ++ toString userId,
            convertTimeframeToMs settings.timeframe, settings⟩] ∧
      lookupInterval (startTradingForUser store st userId).1 ("user-" ++ toString userId) =
        some st.nextTimerId := by
  have key : startTradingForUser store st userId =
      ({ isRunning := true,
         runningIntervals :=
           setKey st.runningIntervals ("user-" ++ toString userId) st.nextTimerId,
         armedTimers := st.armedTimers ++
           [⟨st.nextTimerId, "user-" ++ toString userId,
             convertTimeframeToMs settings.timeframe, settings⟩],
         nextTimerId := st.nextTimerId + 1 }, true) := by
    simp only [startTradingForUser, hs]
    rw [hen]
    rfl
  rw [key]
  refine ⟨rfl, rfl, ?_⟩
  unfold lookupInterval
  rw [find?_setKey]
  rfl

/-- Witness for `start_whileRunning_armsSecondTimer`: user 1 already running
with handle 0. -/
theorem start_whileRunning_armsSecondTimer_witness :
    enabledDemoStore 1 = some demoSettings ∧ demoSettings.enabledTrading = true ∧
      lookupInterval (startTradingForUser enabledDemoStore initialSchedulerState 1).1
        ("user-" ++ toString 1) = some 0 ∧
      ((startTradingForUser enabledDemoStore
          (startTradingForUser enabledDemoStore initialSchedulerState 1).1 1).2 = true ∧
        (startTradingForUser enabledDemoStore
          (startTradingForUser enabledDemoStore initialSchedulerState 1).1 1).1.armedTimers =
          (startTradingForUser enabledDemoStore initialSchedulerState 1).1.armedTimers ++
            [⟨(startTradingForUser enabledDemoStore initialSchedulerState 1).1.nextTimerId,
              "user-" ++ toString 1, convertTimeframeToMs demoSettings.timeframe,
              demoSettings⟩] ∧
        lookupInterval (startTradingForUser enabledDemoStore
            (startTradingForUser enabledDemoStore initialSchedulerState 1).1 1).1
            ("user-" ++ toString 1) =
          some (startTradingForUser enabledDemoStore initialSchedulerState 1).1.nextTimerId) :=
  ⟨by with_unfolding_all rfl, rfl, by with_unfolding_all rfl,
    start_whileRunning_armsSecondTimer enabledDemoStore
      (startTradingForUser enabledDemoStore initialSchedulerState 1).1 1 demoSettings 0
      (by with_unfolding_all rfl) rfl (by with_unfolding_all rfl)⟩

/-! ## Claim C5: ticks never re-read the configuration -/

/-- The settings row after the user disables trading. -/
def disabledSettings : TradingSettings := ⟨"ETHUSDT", "15m", "RSI", 1, false⟩

/-- The store after trading has been disabled for user 1. -/
def disabledDemoStore : Store := fun u => if u = 1 then some disabledSettings else none

/-- A tick environment under the concurrency cap. -/
def demoTickEnv : TickEnv := ⟨0, fun _ => ⟨0, 0, 0⟩, fun _ => shortCycleEnv⟩

/-- C5 counterexample: the timer for user 1 was armed while trading was
enabled (capturing `demoSettings`); trading has since been disabled in the
store — yet the next tick does not skip: it proceeds to fetch candles for the
captured symbol. -/
theorem tick_proceeds_whenDisabled :
    (startTradingForUser enabledDemoStore initialSchedulerState 1).1.armedTimers =
        [⟨0, "user-1", 900000, demoSettings⟩] ∧
      disabledDemoStore 1 = some disabledSettings ∧
      disabledSettings.enabledTrading = false ∧
      (tickFire disabledDemoStore initialConfig demoSettings 1 demoTickEnv).skippedAtCap
        = false ∧
      (tickFire disabledDemoStore initialConfig demoSettings 1 demoTickEnv).candleFetches
        = ["ETHUSDT"] := by
  refine ⟨?_, ?_, ?_, ?_, ?_⟩ <;> with_unfolding_all rfl

/-- C5 (amended): a tick never re-reads the persistence store — its entire
behavior is a function of the settings captured when the timer was armed, so
it is identical under any two store states (in particular one where trading
has since been disabled); and whenever the tick passes the concurrency-cap
check it always proceeds to fetch candles for its resolved symbols instead of
skipping. -/
theorem tick_usesCapturedSettings (store₁ store₂ : Store) (cfg : ServiceConfig)
    (captured : TradingSettings) (userId : ℕ) (tenv : TickEnv)
    (hcap : hasReachedMaxTrades tenv.openTradesAtTickStart cfg.maxConcurrentTrades = false) :
    tickFire store₁ cfg captured userId tenv = tickFire store₂ cfg captured userId tenv ∧
      (tickFire store₁ cfg captured userId tenv).skippedAtCap = false ∧
      (tickFire store₁ cfg captured userId tenv).candleFetches ≠ [] := by
  refine ⟨rfl, ?_, ?_⟩
  · simp [tickFire, hcap]
  · simp only [tickFire, hcap, Bool.false_eq_true, if_false]
    by_cases hens : captured.strategy = "ENSEMBLE" ∨ captured.strategy = "AUTO"
    · rw [if_pos hens]
      have hlen : (getTopTradingPairs tradingPairs tenv.pairPerformance 3).length = 3 := by
        simp [getTopTradingPairs, rankedScores, pairScores, tradingPairs]
      intro hnil
      rw [hnil] at hlen
      simp at hlen
    · rw [if_neg hens]
      simp

/-- Witness for `tick_usesCapturedSettings`: the disabled-store scenario of
the counterexample, compared against the enabled store. -/
theorem tick_usesCapturedSettings_witness :
    hasReachedMaxTrades demoTickEnv.openTradesAtTickStart initialConfig.maxConcurrentTrades
        = false ∧
      (tickFire disabledDemoStore initialConfig demoSettings 1 demoTickEnv =
          tickFire enabledDemoStore initialConfig demoSettings 1 demoTickEnv ∧
        (tickFire disabledDemoStore initialConfig demoSettings 1 demoTickEnv).skippedAtCap
          = false ∧
        (tickFire disabledDemoStore initialConfig demoSettings 1 demoTickEnv).candleFetches
          ≠ []) :=
  ⟨by decide,
    tick_usesCapturedSettings disabledDemoStore enabledDemoStore initialConfig demoSettings 1
      demoTickEnv (by decide)⟩

/-! ## Claim C3: the ENSEMBLE selector reaches the unsupported-strategy path -/

/-- Sixty flat candles — a perfectly valid analysis window. -/
def flat60Candles : List HistoricalCandle :=
  (List.range 60).map fun i => ⟨i, 0, 0, 0, 100, 0⟩

/-- The default settings the start route creates: strategy `ENSEMBLE`. -/
def ensembleSettings : TradingSettings := ⟨"BTCUSDT", "15m", "ENSEMBLE", 1, true⟩

/-- A tick environment for the ensemble scenario: zeroed performance map and
a healthy 60-candle fetch per symbol. -/
def ensembleTickEnv : TickEnv :=
  ⟨0, fun _ => ⟨0, 0, 0⟩, fun _ => ⟨flat60Candles, 0, 0, ⟨1000, 1000⟩, 0, true, "oid-3"⟩⟩

/-- C3 evaluated at the failing input: with the account strategy `ENSEMBLE`,
the tick auto-selects the top three pairs but passes the raw `'ENSEMBLE'` tag
into each per-symbol cycle; `analyzeMarket`'s switch has no such case and
throws `'Unsupported strategy: ENSEMBLE'`, so every cycle of the tick errors
out — no delegation to a concrete strategy ever happens. -/
theorem ensemble_hitsUnsupportedStrategy :
    analyzeMarket flat60Candles "ENSEMBLE" 0 =
        .error "Unsupported strategy: ENSEMBLE" ∧
      (tickFire enabledDemoStore initialConfig ensembleSettings 1 ensembleTickEnv).cycles.map
          (fun c => (c.1, c.2.errorLogged)) =
        [("BTCUSDT", some "Unsupported strategy: ENSEMBLE"),
         ("ETHUSDT", some "Unsupported strategy: ENSEMBLE"),
         ("BNBUSDT", some "Unsupported strategy: ENSEMBLE")] ∧
      (tickFire enabledDemoStore initialConfig ensembleSettings 1 ensembleTickEnv).orders
        = [] := by
  refine ⟨?_, ?_, ?_⟩ <;> with_unfolding_all rfl

/-! ## Claim C6: every emitted signal carries the hard-coded symbol -/

/-- Every signal `macdSignal` emits carries the hard-coded symbol. -/
theorem macdSignal_symbol (closes : List ℚ) (latest : HistoricalCandle) (s : TradeSignal)
    (h : macdSignal closes latest = some s) : s.symbol = "BTCUSDT" := by
  simp only [macdSignal] at h
  repeat' split at h
  all_goals first
    | (cases h; rfl)
    | exact Option.noConfusion h

/-- Every signal `rsiSignal` emits carries the hard-coded symbol. -/
theorem rsiSignal_symbol (closes : List ℚ) (latest : HistoricalCandle) (s : TradeSignal)
    (h : rsiSignal closes latest = some s) : s.symbol = "BTCUSDT" := by
  simp only [rsiSignal] at h
  repeat' split at h
  all_goals first
    | (cases h; rfl)
    | exact Option.noConfusion h

/-- Every signal `bollingerSignal` emits carries the hard-coded symbol. -/
theorem bollingerSignal_symbol (closes : List ℚ) (latest : HistoricalCandle) (σ : ℚ)
    (s : TradeSignal) (h : bollingerSignal closes latest σ = some s) :
    s.symbol = "BTCUSDT" := by
  simp only [bollingerSignal] at h
  repeat' split at h
  all_goals first
    | (cases h; rfl)
    | exact Option.noConfusion h

/-- Every signal `emaSignal` emits carries the hard-coded symbol. -/
theorem emaSignal_symbol (closes : List ℚ) (latest : HistoricalCandle) (s : TradeSignal)
    (h : emaSignal closes latest = some s) : s.symbol = "BTCUSDT" := by
  simp only [emaSignal] at h
  repeat' split at h
  all_goals first
    | (cases h; rfl)
    | exact Option.noConfusion h

/-- Each branch of `analyzeMarket` constructs its signal with the hard-coded
`const symbol = 'BTCUSDT'` of trading-service.ts line 378. -/
theorem analyzeMarket_symbol_btcusdt (candles : List HistoricalCandle)
    (strategy : String) (σ : ℚ) (sig : TradeSignal)
    (hsig : analyzeMarket candles strategy σ = .ok (some sig)) :
    sig.symbol = "BTCUSDT" := by
  unfold analyzeMarket at hsig
  split at hsig
  · exact absurd hsig (by simp)
  · split at hsig
    · exact macdSignal_symbol _ _ _ (by simpa using hsig)
    · exact rsiSignal_symbol _ _ _ (by simpa using hsig)
    · exact bollingerSignal_symbol _ _ _ _ (by simpa using hsig)
    · exact emaSignal_symbol _ _ _ (by simpa using hsig)
    · exact absurd hsig (by simp)

/-- All orders and trades a cycle produces carry the hard-coded symbol. -/
theorem runTradingCycle_symbols (cfg : ServiceConfig) (userId : ℕ) (pairSymbol : String)
    (strategyName : String) (risk : ℚ) (cenv : CycleEnv) :
    (∀ o ∈ (runTradingCycle cfg userId pairSymbol strategyName risk cenv).ordersSubmitted,
      o.symbol = "BTCUSDT") ∧
      (∀ t ∈ (runTradingCycle cfg userId pairSymbol strategyName risk cenv).tradesSaved,
        t.symbol = "BTCUSDT") := by
  rcases hA : analyzeMarket cenv.candles strategyName cenv.sigma with e | osig
  · simp [runTradingCycle, hA]
  · rcases osig with _ | signal
    · simp [runTradingCycle, hA]
    · have hsym := analyzeMarket_symbol_btcusdt _ _ _ _ hA
      by_cases hc : cfg.confidenceThreshold ≤ signal.confidence
      · by_cases hcap : hasReachedMaxTrades cenv.openTradesCount cfg.maxConcurrentTrades = true
        · simp [runTradingCycle, hA, hc, hcap]
        · by_cases hps : 0 < calculatePositionSize cenv.balance.availableBalance risk
              signal.price signal.side
          · by_cases hex : cenv.exchangeOk = true
            · simp [runTradingCycle, hA, hc, hcap, hps, hex, mkInsertTrade, hsym]
            · simp [runTradingCycle, hA, hc, hcap, hps, hex, hsym]
          · simp [runTradingCycle, hA, hc, hcap, hps]
      · simp [runTradingCycle, hA, hc]

/-- C6: whatever candles were supplied and whichever pair the cycle was run
for, an emitted signal's symbol is the hard-coded `'BTCUSDT'`; consequently
the persisted trade record copies that symbol, and every order submitted and
trade saved by `runTradingCycle` — even when invoked for a different pair —
records `'BTCUSDT'`. -/
theorem signal_symbol_hardcoded (candles : List HistoricalCandle) (strategy : String)
    (σ : ℚ) (sig : TradeSignal) (cfg : ServiceConfig) (userId : ℕ) (pairSymbol : String)
    (risk : ℚ) (cenv : CycleEnv)
    (hsig : analyzeMarket candles strategy σ = .ok (some sig)) :
    sig.symbol = "BTCUSDT" ∧
      (∀ u sz oid, (mkInsertTrade u sig sz oid).symbol = "BTCUSDT") ∧
      (∀ o ∈ (runTradingCycle cfg userId pairSymbol strategy risk cenv).ordersSubmitted,
        o.symbol = "BTCUSDT") ∧
      (∀ t ∈ (runTradingCycle cfg userId pairSymbol strategy risk cenv).tradesSaved,
        t.symbol = "BTCUSDT") := by
  have hmain := analyzeMarket_symbol_btcusdt candles strategy σ sig hsig
  obtain ⟨ho, ht⟩ := runTradingCycle_symbols cfg userId pairSymbol strategy risk cenv
  exact ⟨hmain, fun u sz oid => by simp [mkInsertTrade, hmain], ho, ht⟩

/-- Fifty strictly falling candles: RSI is 0, emitting a buy signal. -/
def rsiCandles : List HistoricalCandle :=
  (List.range 50).map fun i => ⟨i, 0, 0, 0, (1000 : ℚ) - i, 0⟩

/-- The signal the falling-close window produces under `RSI`. -/
def rsiDemoSignal : TradeSignal := ⟨"BTCUSDT", .buy, 951, 49, .RSI, 80⟩

/-- A cycle environment for the falling-close window, run for pair ETHUSDT. -/
def rsiCycleEnv : CycleEnv := ⟨rsiCandles, 0, 0, ⟨1000, 1000⟩, 0, true, "oid-4"⟩

/-- Witness for `signal_symbol_hardcoded`: the falling-close RSI window, with
the cycle invoked for pair `ETHUSDT` — the emitted signal, the submitted
order and the persisted trade all say `BTCUSDT`. -/
theorem signal_symbol_hardcoded_witness :
    analyzeMarket rsiCandles "RSI" 0 = .ok (some rsiDemoSignal) ∧
      (rsiDemoSignal.symbol = "BTCUSDT" ∧
        (∀ u sz oid, (mkInsertTrade u rsiDemoSignal sz oid).symbol = "BTCUSDT") ∧
        (∀ o ∈ (runTradingCycle initialConfig 7 "ETHUSDT" "RSI" 1
            rsiCycleEnv).ordersSubmitted, o.symbol = "BTCUSDT") ∧
        (∀ t ∈ (runTradingCycle initialConfig 7 "ETHUSDT" "RSI" 1
            rsiCycleEnv).tradesSaved, t.symbol = "BTCUSDT")) :=
  ⟨by with_unfolding_all rfl,
    signal_symbol_hardcoded rsiCandles "RSI" 0 rsiDemoSignal initialConfig 7 "ETHUSDT" 1
      rsiCycleEnv (by with_unfolding_all rfl)⟩

/-! ## Claim C2: confidence bounds — arithmetic groundwork -/

/-- A list of non-negative rationals with zero sum is identically zero. -/
theorem eq_zero_of_sum_eq_zero :
    ∀ l : List ℚ, (∀ x ∈ l, 0 ≤ x) → l.sum = 0 → ∀ x ∈ l, x = 0 := by
  intro l
  induction l with
  | nil => simp
  | cons hd tl ih =>
    intro hnn hsum x hx
    have hhd : 0 ≤ hd := hnn hd (by simp)
    have htl : 0 ≤ tl.sum := List.sum_nonneg fun y hy => hnn y (by simp [hy])
    rw [List.sum_cons] at hsum
    have hhd0 : hd = 0 := by linarith
    have htl0 : tl.sum = 0 := by linarith
    rcases List.mem_cons.mp hx with rfl | hx
    · exact hhd0
    · exact ih (fun y hy => hnn y (by simp [hy])) htl0 x hx

/-- The last element of a list belongs to every final segment shorter than
the list. -/
theorem getLast_mem_drop {l : List ℚ} {n : ℕ} {x : ℚ}
    (hlast : l.getLast? = some x) (hn : n < l.length) : x ∈ l.drop n := by
  obtain ⟨ys, rfl⟩ := List.getLast?_eq_some_iff.mp hlast
  have hlen : n ≤ ys.length := by
    simp only [List.length_append, List.length_cons, List.length_nil] at hn
    omega
  rw [List.drop_append_of_le_length hlen]
  simp

/-- Every step of `emaRun` stays positive when the smoothing factor lies in
`(0, 1]`, the seed is positive and the inputs are positive. -/
theorem emaRun_pos (k : ℚ) (hk0 : 0 < k) (hk1 : k ≤ 1) :
    ∀ (xs : List ℚ) (prev : ℚ), 0 < prev → (∀ x ∈ xs, 0 < x) →
      ∀ y ∈ emaRun k prev xs, 0 < y := by
  intro xs
  induction xs with
  | nil => simp [emaRun]
  | cons hd tl ih =>
    intro prev hprev hpos y hy
    have hhd : 0 < hd := hpos hd (by simp)
    have hstep : 0 < k * hd + (1 - k) * prev := by nlinarith
    rw [emaRun] at hy
    rcases List.mem_cons.mp hy with rfl | hy
    · exact hstep
    · exact ih (k * hd + (1 - k) * prev) hstep (fun x hx => hpos x (by simp [hx])) y hy

/-- Every entry of `emaList` over positive values is positive. -/
theorem emaList_pos (period : ℕ) (values : List ℚ)
    (hpos : ∀ x ∈ values, 0 < x) : ∀ y ∈ emaList period values, 0 < y := by
  intro y hy
  unfold emaList at hy
  split at hy
  · simp at hy
  · next hguard =>
    push_neg at hguard
    obtain ⟨hlen, hp⟩ := hguard
    have hp1 : 1 ≤ period := Nat.one_le_iff_ne_zero.mpr hp
    have htake : ∀ x ∈ values.take period, 0 < x :=
      fun x hx => hpos x (List.mem_of_mem_take hx)
    have htlen : (values.take period).length = period := by
      rw [List.length_take]
      omega
    have hne : values.take period ≠ [] := by
      intro hnil
      rw [hnil] at htlen
      simp at htlen
      omega
    have hsum : 0 < (values.take period).sum := List.sum_pos _ htake hne
    have hseed : 0 < (values.take period).sum / (period : ℚ) := by
      apply div_pos hsum
      exact_mod_cast Nat.pos_of_ne_zero hp
    have hk0 : 0 < 2 / ((period : ℚ) + 1) := by
      apply div_pos (by norm_num)
      have : (1 : ℚ) ≤ (period : ℚ) := by exact_mod_cast hp1
      linarith
    have hk1 : 2 / ((period : ℚ) + 1) ≤ 1 := by
      rw [div_le_one (by positivity)]
      have : (1 : ℚ) ≤ (period : ℚ) := by exact_mod_cast hp1
      linarith
    rcases List.mem_cons.mp hy with rfl | hy
    · exact hseed
    · exact emaRun_pos _ hk0 hk1 _ _ hseed
        (fun x hx => hpos x (List.mem_of_mem_drop hx)) y hy

/-- Wilder smoothing preserves non-negativity of the average pair. -/
theorem wilderRun_nonneg (p : ℚ) (hp : 1 ≤ p) :
    ∀ (l : List (ℚ × ℚ)) (avg : ℚ × ℚ), 0 ≤ avg.1 → 0 ≤ avg.2 →
      (∀ gl ∈ l, 0 ≤ gl.1 ∧ 0 ≤ gl.2) →
      ∀ q ∈ wilderRun p avg l, 0 ≤ q.1 ∧ 0 ≤ q.2 := by
  intro l
  induction l with
  | nil => simp [wilderRun]
  | cons hd tl ih =>
    intro avg h1 h2 hl q hq
    obtain ⟨hhd1, hhd2⟩ := hl hd (by simp)
    have hstep1 : 0 ≤ (avg.1 * (p - 1) + hd.1) / p := by
      apply div_nonneg _ (by linarith)
      nlinarith
    have hstep2 : 0 ≤ (avg.2 * (p - 1) + hd.2) / p := by
      apply div_nonneg _ (by linarith)
      nlinarith
    rw [wilderRun] at hq
    rcases List.mem_cons.mp hq with rfl | hq
    · exact ⟨hstep1, hstep2⟩
    · exact ih _ hstep1 hstep2 (fun gl hgl => hl gl (by simp [hgl])) q hq

/-- Every defined RSI value lies in `[0, 100]`. -/
theorem rsiCalculate_bounds (period : ℕ) (values : List ℚ) :
    ∀ oq ∈ rsiCalculate period values, ∀ r : ℚ, oq = some r → 0 ≤ r ∧ r ≤ 100 := by
  intro oq hoq r hr
  unfold rsiCalculate at hoq
  simp only [] at hoq
  split at hoq
  · simp at hoq
  · next hguard =>
    push_neg at hguard
    obtain ⟨_, hp⟩ := hguard
    have hp1 : (1 : ℚ) ≤ (period : ℚ) := by
      exact_mod_cast Nat.one_le_iff_ne_zero.mpr hp
    set diffs := List.zipWith (fun a b => b - a) values values.tail with hdiffs
    set gl := diffs.map fun d => (max d 0, max (-d) 0) with hgl
    have hglnn : ∀ x ∈ gl, 0 ≤ x.1 ∧ 0 ≤ x.2 := by
      intro x hx
      rw [hgl] at hx
      obtain ⟨d, _, rfl⟩ := List.mem_map.mp hx
      exact ⟨le_max_right _ _, le_max_right _ _⟩
    set seed : ℚ × ℚ := (((gl.take period).map Prod.fst).sum / (period : ℚ),
        ((gl.take period).map Prod.snd).sum / (period : ℚ)) with hseed
    have hseed1 : 0 ≤ seed.1 := by
      apply div_nonneg _ (by linarith)
      apply List.sum_nonneg
      intro x hx
      obtain ⟨q, hq, rfl⟩ := List.mem_map.mp hx
      exact (hglnn q (List.mem_of_mem_take hq)).1
    have hseed2 : 0 ≤ seed.2 := by
      apply div_nonneg _ (by linarith)
      apply List.sum_nonneg
      intro x hx
      obtain ⟨q, hq, rfl⟩ := List.mem_map.mp hx
      exact (hglnn q (List.mem_of_mem_take hq)).2
    obtain ⟨q, hq, hfq⟩ := List.mem_map.mp hoq
    have hqnn : 0 ≤ q.1 ∧ 0 ≤ q.2 := by
      rcases List.mem_cons.mp hq with rfl | hq
      · exact ⟨hseed1, hseed2⟩
      · exact wilderRun_nonneg (period : ℚ) hp1 _ seed hseed1 hseed2
          (fun x hx => hglnn x (List.mem_of_mem_drop hx)) q hq
    rw [← hfq] at hr
    split at hr
    · exact absurd hr (by simp)
    · next hne =>
      have hr' : r = 100 * q.1 / (q.1 + q.2) := by
        have := Option.some.injEq (100 * q.1 / (q.1 + q.2)) r
        simpa [eq_comm] using hr
      have hsumpos : 0 < q.1 + q.2 := lt_of_le_of_ne (by linarith [hqnn.1, hqnn.2]) (Ne.symm hne)
      constructor
      · rw [hr']
        apply div_nonneg _ (le_of_lt hsumpos)
        linarith [hqnn.1]
      · rw [hr', div_le_iff₀ hsumpos]
        nlinarith [hqnn.1, hqnn.2]

/-- `calculateConfidence` always returns a value in `[0, 95]` (base 70 plus
non-negative bonuses, capped at 95; the default branch returns 70). -/
theorem calculateConfidence_bounds (st : Strategy) (side : Side) (cur prev : MACDPoint) :
    0 ≤ calculateConfidence st side cur prev ∧ calculateConfidence st side cur prev ≤ 95 := by
  cases st
  case MACD =>
    unfold calculateConfidence
    have habs : 0 ≤ |cur.MACD - cur.signal| := abs_nonneg _
    constructor
    · apply le_min _ (by norm_num)
      split
      · nlinarith
      · split
        · nlinarith
        · nlinarith
    · exact min_le_right _ _
  all_goals exact ⟨by norm_num [calculateConfidence], by norm_num [calculateConfidence]⟩

/-- The MACD branch only emits confidences in `[0, 95]`. -/
theorem macdSignal_conf_bounds (closes : List ℚ) (latest : HistoricalCandle)
    (s : TradeSignal) (h : macdSignal closes latest = some s) :
    0 ≤ s.confidence ∧ s.confidence ≤ 95 := by
  simp only [macdSignal] at h
  repeat' split at h
  all_goals first
    | (cases h; exact calculateConfidence_bounds _ _ _ _)
    | exact Option.noConfusion h

/-- The RSI branch only emits confidences in `[0, 95]`. -/
theorem rsiSignal_conf_bounds (closes : List ℚ) (latest : HistoricalCandle)
    (s : TradeSignal) (h : rsiSignal closes latest = some s) :
    0 ≤ s.confidence ∧ s.confidence ≤ 95 := by
  simp only [rsiSignal] at h
  split at h
  · next oR rest hrev =>
    have hmem : oR ∈ rsiCalculate 14 closes := by
      have h1 : oR ∈ (rsiCalculate 14 closes).reverse := by rw [hrev]; simp
      simpa using h1
    split at h
    · next r =>
      obtain ⟨hr0, hr100⟩ := rsiCalculate_bounds 14 closes _ hmem r rfl
      split at h
      · cases h
        exact ⟨by dsimp only; linarith, by dsimp only; linarith⟩
      · split at h
        · cases h
          exact ⟨by dsimp only; linarith, by dsimp only; linarith⟩
        · exact Option.noConfusion h
    · exact Option.noConfusion h
  · exact Option.noConfusion h

/-- The Bollinger branch only emits confidences in `[0, 95]`: a band
penetration forces a strictly positive standard deviation (a zero-variance
window is constant, so its last close cannot leave the collapsed band), hence
the penetration percentage is positive and `min (70 + pen) 95 ∈ (70, 95]`. -/
theorem bollingerSignal_conf_bounds (closes : List ℚ) (latest : HistoricalCandle) (σ : ℚ)
    (s : TradeSignal) (hσ : 0 ≤ σ) (hσ2 : σ * σ = bollingerVariance closes)
    (hlast : closes.getLast? = some latest.close)
    (h : bollingerSignal closes latest σ = some s) :
    0 ≤ s.confidence ∧ s.confidence ≤ 95 := by
  simp only [bollingerSignal] at h
  split at h
  · exact Option.noConfusion h
  · next hlen =>
    push_neg at hlen
    have hpricemem : latest.close ∈ closes.drop (closes.length - 20) :=
      getLast_mem_drop hlast (by omega)
    have hσpos : (latest.close < (closes.drop (closes.length - 20)).sum / 20 - 2 * σ ∨
        (closes.drop (closes.length - 20)).sum / 20 + 2 * σ < latest.close) → 0 < σ := by
      intro hcase
      rcases hσ.lt_or_eq with hpos | heq
      · exact hpos
      · exfalso
        have hvar : (((closes.drop (closes.length - 20)).map
            (fun x => (x - (closes.drop (closes.length - 20)).sum / 20) ^ 2)).sum) = 0 := by
          have h0 : bollingerVariance closes = 0 := by rw [← hσ2, ← heq]; ring
          unfold bollingerVariance at h0
          simp only [] at h0
          linarith
        have heqmid : latest.close = (closes.drop (closes.length - 20)).sum / 20 := by
          have hsq := eq_zero_of_sum_eq_zero _
            (fun x hx => by
              obtain ⟨y, _, rfl⟩ := List.mem_map.mp hx
              exact sq_nonneg _)
            hvar
            ((latest.close - (closes.drop (closes.length - 20)).sum / 20) ^ 2)
            (List.mem_map.mpr ⟨latest.close, hpricemem, rfl⟩)
          have := sq_eq_zero_iff.mp hsq
          linarith [sub_eq_zero.mp this]
        rcases hcase with hlt | hgt
        · rw [← heq] at hlt
          rw [heqmid] at hlt
          linarith
        · rw [← heq] at hgt
          rw [heqmid] at hgt
          linarith
    split at h
    · next hbuy =>
      cases h
      have hs : 0 < σ := hσpos (Or.inl hbuy)
      have hden : 0 < (closes.drop (closes.length - 20)).sum / 20 + 2 * σ -
          ((closes.drop (closes.length - 20)).sum / 20 - 2 * σ) := by linarith
      have hpen : 0 ≤ ((closes.drop (closes.length - 20)).sum / 20 - 2 * σ - latest.close) /
          ((closes.drop (closes.length - 20)).sum / 20 + 2 * σ -
            ((closes.drop (closes.length - 20)).sum / 20 - 2 * σ)) * 100 := by
        apply mul_nonneg _ (by norm_num)
        apply div_nonneg (by linarith) (by linarith)
      exact ⟨le_min (by linarith) (by norm_num), min_le_right _ _⟩
    · split at h
      · next hsell =>
        cases h
        have hs : 0 < σ := hσpos (Or.inr hsell)
        have hpen : 0 ≤ (latest.close - ((closes.drop (closes.length - 20)).sum / 20 + 2 * σ)) /
            ((closes.drop (closes.length - 20)).sum / 20 + 2 * σ -
              ((closes.drop (closes.length - 20)).sum / 20 - 2 * σ)) * 100 := by
          apply mul_nonneg _ (by norm_num)
          apply div_nonneg (by linarith) (by linarith)
        exact ⟨le_min (by linarith) (by norm_num), min_le_right _ _⟩
      · exact Option.noConfusion h

/-- The EMA branch only emits confidences in `[0, 95]` when every close is
positive: the long EMA of a positive series is positive, so the relative gap
is non-negative and `min (70 + gap × 10) 95 ∈ [70, 95]`. -/
theorem emaSignal_conf_bounds (closes : List ℚ) (latest : HistoricalCandle)
    (s : TradeSignal) (hpos : ∀ x ∈ closes, 0 < x)
    (h : emaSignal closes latest = some s) :
    0 ≤ s.confidence ∧ s.confidence ≤ 95 := by
  simp only [emaSignal] at h
  split at h
  · next cs ps rest cl pl rest2 hrev1 hrev2 =>
    have hclmem : cl ∈ emaList 21 closes := by
      have h1 : cl ∈ (emaList 21 closes).reverse := by rw [hrev2]; simp
      simpa using h1
    have hcl : 0 < cl := emaList_pos 21 closes hpos cl hclmem
    have hdiff : 0 ≤ |cs - cl| / cl * 100 * 10 :=
      mul_nonneg (mul_nonneg (div_nonneg (abs_nonneg _) hcl.le) (by norm_num)) (by norm_num)
    split at h
    · cases h
      exact ⟨le_min (by linarith) (by norm_num), min_le_right _ _⟩
    · split at h
      · cases h
        exact ⟨le_min (by linarith) (by norm_num), min_le_right _ _⟩
      · exact Option.noConfusion h
  · exact Option.noConfusion h

/-- C2 (amended): for every candle window of length ≥ 50 **whose closes are
all positive** and each of the four concrete strategies, an emitted signal's
confidence lies in `[0, 100]` and never exceeds 95 (`σ` is the Bollinger
standard deviation of the final 20-close window, supplied with its defining
hypotheses).  Positivity is needed only by the EMA rule, whose relative-gap
term divides by the long EMA; see `emaSignal_negative_confidence`. -/
theorem analyzeMarket_confidence_bounds (candles : List HistoricalCandle)
    (strategy : String) (σ : ℚ) (sig : TradeSignal)
    (_hstrat : strategy = "MACD" ∨ strategy = "RSI" ∨ strategy = "BOLLINGER" ∨
      strategy = "EMA")
    (hpos : ∀ c ∈ candles, 0 < c.close) (hσ : 0 ≤ σ)
    (hσ2 : σ * σ = bollingerVariance (candles.map (·.close)))
    (hsig : analyzeMarket candles strategy σ = .ok (some sig)) :
    0 ≤ sig.confidence ∧ sig.confidence ≤ 95 ∧ sig.confidence ≤ 100 := by
  suffices h : 0 ≤ sig.confidence ∧ sig.confidence ≤ 95 from
    ⟨h.1, h.2, by linarith [h.2]⟩
  unfold analyzeMarket at hsig
  split at hsig
  · exact absurd hsig (by simp)
  · next hlen =>
    push_neg at hlen
    have hne : candles ≠ [] := by
      intro hnil
      rw [hnil] at hlen
      simp at hlen
    obtain ⟨c, hc⟩ := Option.isSome_iff_exists.mp (List.getLast?_isSome.mpr hne)
    have hlast : (candles.map (·.close)).getLast? =
        some ((candles.getLast?.getD ⟨0, 0, 0, 0, 0, 0⟩).close) := by
      rw [List.getLast?_map, hc]
      rfl
    have hposc : ∀ x ∈ candles.map (·.close), 0 < x := by
      intro x hx
      obtain ⟨cc, hmem, rfl⟩ := List.mem_map.mp hx
      exact hpos cc hmem
    split at hsig
    · exact macdSignal_conf_bounds _ _ _ (by simpa using hsig)
    · exact rsiSignal_conf_bounds _ _ _ (by simpa using hsig)
    · exact bollingerSignal_conf_bounds _ _ _ _ hσ hσ2 hlast (by simpa using hsig)
    · exact emaSignal_conf_bounds _ _ _ hposc (by simpa using hsig)
    · exact absurd hsig (by simp)

/-- Fifty candles: 48 closes of −10, then −11, then 0. -/
def emaCexCandles : List HistoricalCandle :=
  ((List.range 48).map fun i => (⟨i, 0, 0, 0, (-10 : ℚ), 0⟩ : HistoricalCandle))
    ++ [⟨48, 0, 0, 0, (-11 : ℚ), 0⟩, ⟨49, 0, 0, 0, (0 : ℚ), 0⟩]

/-- C2 counterexample: on a 50-candle window (with non-positive closes) the
EMA rule emits a signal whose confidence is `−1498/37 ≈ −40.5`, outside
`[0, 100]`: the relative EMA gap divides by the (negative) long EMA, and
nothing clamps the result from below. -/
theorem emaSignal_negative_confidence :
    50 ≤ emaCexCandles.length ∧
      ((analyzeMarket emaCexCandles "EMA" 0).toOption.join.map TradeSignal.confidence)
        = some (-1498/37) ∧
      ((-1498 : ℚ)/37) < 0 := by
  refine ⟨by decide, by with_unfolding_all rfl, by norm_num⟩

/-- Fifty candles: 48 closes of 100, then two of 90; the final 20-close
window (18 × 100, 2 × 90) has mean 99 and variance 9, so `σ = 3`. -/
def bollCandles : List HistoricalCandle :=
  ((List.range 48).map fun i => (⟨i, 0, 0, 0, (100 : ℚ), 0⟩ : HistoricalCandle))
    ++ [⟨48, 0, 0, 0, (90 : ℚ), 0⟩, ⟨49, 0, 0, 0, (90 : ℚ), 0⟩]

/-- The buy signal the `bollCandles` window produces under `BOLLINGER` with
`σ = 3`: price 90 is below the lower band 93, penetration 25% of the band
width, confidence `min (70 + 25) 95 = 95`. -/
def bollDemoSignal : TradeSignal := ⟨"BTCUSDT", .buy, 90, 49, .BOLLINGER, 95⟩

/-- Witness for `analyzeMarket_confidence_bounds` on the Bollinger scenario. -/
theorem analyzeMarket_confidence_bounds_witness :
    ("BOLLINGER" = "MACD" ∨ "BOLLINGER" = "RSI" ∨ "BOLLINGER" = "BOLLINGER" ∨
        "BOLLINGER" = "EMA") ∧
      (∀ c ∈ bollCandles, 0 < c.close) ∧ (0 : ℚ) ≤ 3 ∧
      (3 : ℚ) * 3 = bollingerVariance (bollCandles.map (·.close)) ∧
      analyzeMarket bollCandles "BOLLINGER" 3 = .ok (some bollDemoSignal) ∧
      (0 ≤ bollDemoSignal.confidence ∧ bollDemoSignal.confidence ≤ 95 ∧
        bollDemoSignal.confidence ≤ 100) :=
  ⟨Or.inr (Or.inr (Or.inl rfl)), by with_unfolding_all decide, by norm_num,
    by with_unfolding_all rfl, by with_unfolding_all rfl,
    analyzeMarket_confidence_bounds bollCandles "BOLLINGER" 3 bollDemoSignal
      (Or.inr (Or.inr (Or.inl rfl))) (by with_unfolding_all decide) (by norm_num)
      (by with_unfolding_all rfl) (by with_unfolding_all rfl)⟩

end Simtwoo
